import Mathlib

/-!
Verification of the question-answering tutorial repository.

The repository's original logic is a handful of notebook helper functions
(`load_docs`, `process_docs`, `encode_base64`, `get_or_create_experiment` /
`set_experiment`) plus HTTP invocations of inference services.  This file
gives a shallow embedding of that logic and of the retrieval-augmented
pipeline components the spec describes (Ingestor, Index, Query Router),
and proves or refutes the spec's claims about them.

Python strings are embedded as `List Char`, bytes and unicode codepoints
as `Nat`, JSON request bodies as an inductive `JVal`, exceptions as
`Except` / `Option`.  Components whose code lives outside the reviewed
notebook sources (the predictor and transformer images under
`dockerfiles/`, the langchain `RecursiveCharacterTextSplitter`, the
Chroma index) are modelled from the spec, as marked in their doc
comments.
-/

/-! ## Generic list-of-char utilities -/

/-- `isPre p l` is true when `p` is a leading segment of `l`
(Python `str.startswith`). -/
def isPre : List Char → List Char → Bool
  | [], _ => true
  | _ :: _, [] => false
  | a :: as, b :: bs => a == b && isPre as bs

/-- `endsWithL suf l` is true when `suf` is a trailing segment of `l`
(Python `str.endswith`). -/
def endsWithL (suf l : List Char) : Bool :=
  isPre suf.reverse l.reverse

/-- `hasSub sep l` is true when `sep` occurs contiguously somewhere in `l`
(Python `sep in text`). -/
def hasSub (sep : List Char) : List Char → Bool
  | [] => isPre sep []
  | c :: rest => isPre sep (c :: rest) || hasSub sep rest

/-! ## `encode_base64` (02.serve-vectorstore.ipynb)

```python
def encode_base64(message: str):
    encoded_bytes = base64.b64encode(message.encode('ASCII'))
    return encoded_bytes.decode('ASCII')
```

`message` is a list of unicode codepoints; `str.encode('ASCII')` maps
codepoints below 128 to identical byte values and raises
`UnicodeEncodeError` otherwise; `base64.b64encode` is standard base64 with
`=` padding. -/

/-- The base64 alphabet, positions 0–63. -/
def b64Alphabet : List Char :=
  "ABCDEFGHIJKLMNOPQRSTUVWXYZabcdefghijklmnopqrstuvwxyz0123456789+/".data

/-- Character for a six-bit group. -/
def encB64Char (i : Nat) : Char := b64Alphabet.getD i '?'

/-- Index of a character in the base64 alphabet; 64 when the character is
not in the alphabet (covers `=` and any foreign character). -/
def decB64Char (c : Char) : Nat := b64Alphabet.indexOf c

/-- `base64.b64encode` on a byte list (each < 256), producing the base64
character string with padding. -/
def b64encodeBytes : List Nat → List Char
  | [] => []
  | [a] => [encB64Char (a / 4), encB64Char (a % 4 * 16), '=', '=']
  | [a, b] => [encB64Char (a / 4), encB64Char (a % 4 * 16 + b / 16),
      encB64Char (b % 16 * 4), '=']
  | a :: b :: c :: rest =>
      encB64Char (a / 4) :: encB64Char (a % 4 * 16 + b / 16) ::
      encB64Char (b % 16 * 4 + c / 64) :: encB64Char (c % 64) ::
      b64encodeBytes rest

/-- `base64.b64decode` on a base64 character string: `none` on invalid
input, otherwise the decoded byte list. -/
def b64decodeChars : List Char → Option (List Nat)
  | [] => some []
  | w :: x :: y :: z :: rest =>
    let a := decB64Char w
    let b := decB64Char x
    if a < 64 && b < 64 then
      if y == '=' && z == '=' && rest.isEmpty then
        some [a * 4 + b / 16]
      else if z == '=' && rest.isEmpty then
        let c := decB64Char y
        if c < 64 then some [a * 4 + b / 16, b % 16 * 16 + c / 4] else none
      else
        let c := decB64Char y
        let d := decB64Char z
        if c < 64 && d < 64 then
          (b64decodeChars rest).map
            (fun tail => (a * 4 + b / 16) :: (b % 16 * 16 + c / 4) ::
              (c % 4 * 64 + d) :: tail)
        else none
    else none
  | _ => none

/-- Python `str.encode('ASCII')`: succeeds iff every codepoint is below
128, in which case the byte values equal the codepoints. -/
def strEncodeAscii (msg : List Nat) : Option (List Nat) :=
  if msg.all (· < 128) then some msg else none

/-- Python `bytes.decode('ASCII')`: succeeds iff every byte is below 128. -/
def bytesDecodeAscii (bs : List Nat) : Option (List Nat) :=
  if bs.all (· < 128) then some bs else none

/-- `encode_base64` from 02.serve-vectorstore.ipynb: ASCII-encode the
message and base64 it; `none` models the propagated `UnicodeEncodeError`. -/
def encode_base64 (message : List Nat) : Option (List Char) :=
  (strEncodeAscii message).map b64encodeBytes

/-! ## The document chunker (01.create-vectorstore.ipynb)

```python
def process_docs(docs: list, chunk_size: int, chunk_overlap: int) -> list:
    text_splitter = RecursiveCharacterTextSplitter(chunk_size=chunk_size, chunk_overlap=chunk_overlap)
    texts = text_splitter.split_documents(docs)
    return texts

texts = process_docs(docs, chunk_size=500, chunk_overlap=0)
```

Modelled from the spec: the `RecursiveCharacterTextSplitter` itself lives
in the langchain dependency, not in the reviewed sources.  The model
follows the spec's and the notebook's description — documents are split
at the default separators (two consecutive newlines, then single
newlines, then spaces, then single characters), the pieces (each carrying
its leading separator) are greedily merged into chunks of at most
`chunk_size` characters, pieces that are still too long are re-split with
the remaining separators, and consecutive chunks share at most
`chunk_overlap` trailing characters (0 in the observed usage).  The
whitespace-stripping of finished chunks is omitted. -/

/-- Total length in characters of a list of pieces. -/
def curLen (cur : List (List Char)) : Nat := cur.flatten.length

/-- The splitter's overlap window: drop leading pieces of the current
chunk until the remainder is within `chunk_overlap` and leaves room for
the incoming piece of length `dlen`. -/
def popWhile (cs ov dlen : Nat) : List (List Char) → List (List Char)
  | [] => []
  | c :: rest =>
    if ov < curLen (c :: rest) ∨ (cs < curLen (c :: rest) + dlen ∧ 0 < curLen (c :: rest)) then
      popWhile cs ov dlen rest
    else c :: rest

/-- Greedy merge of split pieces into chunks of at most `cs` characters
(the splitter's `_merge_splits` with the empty joining separator). -/
def mergeAux (cs ov : Nat) : List (List Char) → List (List Char) → List (List Char)
  | [], cur => if cur.isEmpty then [] else [cur.flatten]
  | d :: ds, cur =>
    if cs < curLen cur + d.length then
      if cur.isEmpty then mergeAux cs ov ds [d]
      else cur.flatten :: mergeAux cs ov ds (popWhile cs ov d.length cur ++ [d])
    else mergeAux cs ov ds (cur ++ [d])

/-- Split `text` at the occurrences of `sep`, keeping each separator
attached to the piece that follows it, so the pieces concatenate back to
`text`; `fuel` bounds the recursion and is instantiated with the text
length. -/
def splitKSAux (sep : List Char) : Nat → List Char → List Char → List (List Char)
  | _, [], cur => if cur.isEmpty then [] else [cur]
  | 0, text, cur => if (cur ++ text).isEmpty then [] else [cur ++ text]
  | fuel + 1, c :: rest, cur =>
    if !sep.isEmpty && isPre sep (c :: rest) then
      (if cur.isEmpty then [] else [cur]) ++
        splitKSAux sep fuel ((c :: rest).drop sep.length) sep
    else splitKSAux sep fuel rest (cur ++ [c])

/-- Separator-keeping split of a text. -/
def splitKS (sep text : List Char) : List (List Char) :=
  splitKSAux sep text.length text []

/-- Process the pieces of one separator level: runs of pieces shorter
than `cs` are greedily merged, and each over-long piece is replaced by
the chunks `res` obtained by re-splitting it at the remaining
separators. -/
def combine (cs ov : Nat) : List (List Char × List (List Char)) → List (List Char) → List (List Char)
  | [], good => mergeAux cs ov good []
  | (s, res) :: rest, good =>
    if s.length < cs then combine cs ov rest (good ++ [s])
    else mergeAux cs ov good [] ++ res ++ combine cs ov rest []

/-- The recursive character splitter: pick the first separator of `seps`
that is empty or occurs in the text, split there, merge short pieces and
recurse into long ones; the empty separator splits into single
characters. -/
def splitText (cs ov : Nat) : List (List Char) → List Char → List (List Char)
  | [], text => [text]
  | sep :: rest, text =>
    if sep.isEmpty then
      combine cs ov (text.map (fun ch => ([ch], [[ch]]))) []
    else if hasSub sep text then
      combine cs ov ((splitKS sep text).map (fun s => (s, splitText cs ov rest s))) []
    else splitText cs ov rest text

/-- The splitter's default separator list: `"\n\n"`, `"\n"`, `" "`, `""`. -/
def defaultSeparators : List (List Char) := [['\n', '\n'], ['\n'], [' '], []]

/-- A langchain `Document`: raw text plus its source identifier. -/
structure Document where
  page_content : List Char
  source : List Char
  deriving DecidableEq

/-- `split_documents`: chunk every document's text, copying the source
metadata onto each chunk. -/
def split_documents (cs ov : Nat) (docs : List Document) : List Document :=
  docs.flatMap (fun d =>
    (splitText cs ov defaultSeparators d.page_content).map
      (fun c => { page_content := c, source := d.source }))

/-- `process_docs` from 01.create-vectorstore.ipynb. -/
def process_docs (docs : List Document) (chunk_size chunk_overlap : Nat) : List Document :=
  split_documents chunk_size chunk_overlap docs

/-- `substringsInOrder cs text` holds when the lists in `cs` occur in
`text` in order, at pairwise disjoint (non-overlapping) positions. -/
def substringsInOrder : List (List Char) → List Char → Prop
  | [], _ => True
  | c :: cs, text => ∃ pre rest, text = pre ++ c ++ rest ∧ substringsInOrder cs rest

/-! ## `load_docs` (01.create-vectorstore.ipynb)

```python
def load_docs(source_dir: str) -> list:
    fns = glob.glob(os.path.join(source_dir, "*.txt"))
    docs = []
    for i, fn in enumerate(tqdm(fns, desc="Loading documents...")):
        docs.extend(load_doc(fn))
    return docs
```

A directory is a list of entries, each with a path relative to
`source_dir` (entries inside subdirectories contain a `/`).  `glob` with
the pattern `source_dir/*.txt` matches exactly the entries whose relative
path contains no `/`, does not start with a dot, and ends in `.txt`. -/

/-- A file in the scanned directory tree. -/
structure FsEntry where
  relPath : List Char
  content : List Char
  deriving DecidableEq

/-- Whether `glob.glob(os.path.join(source_dir, "*.txt"))` matches the
entry: directly in the directory, not hidden, with the `.txt` suffix. -/
def matchesTxtGlob (name : List Char) : Bool :=
  name.all (fun ch => ch != '/') &&
  (match name with | [] => false | ch :: _ => ch != '.') &&
  endsWithL ".txt".data name

/-- `load_doc`: `TextLoader(fn).load()` returns a one-element list with
the file's text and its path as the source. -/
def load_doc (f : FsEntry) : List Document :=
  [{ page_content := f.content, source := f.relPath }]

/-- `load_docs` from 01.create-vectorstore.ipynb. -/
def load_docs (files : List FsEntry) : List Document :=
  (files.filter (fun f => matchesTxtGlob f.relPath)).flatMap load_doc

/-! ## The Index (spec §4.2, 01.create-vectorstore.ipynb)

Modelled from the spec: the Chroma vector store and the
`dockerfiles/vectorstore` predictor are not part of the reviewed
sources.  Per the spec, the Index stores (chunk text, embedding) pairs,
where every embedding is produced by the one embedding function the
store was created with, and `query` embeds the query text with that same
function and returns the `k` stored entries with smallest distance. -/

/-- An Index Entry: (chunk text, embedding vector). -/
structure IndexEntry where
  chunk : List Char
  emb : List Int
  deriving DecidableEq

/-- The Index: its single embedding function and its stored entries. -/
structure VectorStore where
  embedF : List Char → List Int
  entries : List IndexEntry

/-- Squared Euclidean distance between embedding vectors. -/
def sqDist : List Int → List Int → Int
  | a :: as, b :: bs => (a - b) * (a - b) + sqDist as bs
  | _, _ => 0

/-- `Chroma.from_documents`: embed every chunk with the given embedding
function (`HuggingFaceEmbeddings`, instantiated once in the notebook) and
store the (chunk, embedding) pairs. -/
def from_documents (embedding : List Char → List Int) (texts : List (List Char)) : VectorStore :=
  { embedF := embedding
    entries := texts.map (fun t => { chunk := t, emb := embedding t }) }

/-- Stable insertion of an entry into a list ordered by distance to the
query embedding `q`; on ties the existing entry stays first. -/
def orderedInsertE (q : List Int) (e : IndexEntry) : List IndexEntry → List IndexEntry
  | [] => [e]
  | x :: xs =>
    if sqDist q e.emb ≤ sqDist q x.emb then e :: x :: xs
    else x :: orderedInsertE q e xs

/-- Stable sort of the entries by distance to the query embedding. -/
def sortEntries (q : List Int) : List IndexEntry → List IndexEntry
  | [] => []
  | x :: xs => orderedInsertE q x (sortEntries q xs)

/-- The `k` entries nearest to a query embedding. -/
def kNearest (entries : List IndexEntry) (qEmb : List Int) (k : Nat) : List IndexEntry :=
  (sortEntries qEmb entries).take k

/-- `db.similarity_search(query)`: embed the query with the store's own
embedding function and return the `k` nearest entries. -/
def similarity_search (db : VectorStore) (query : List Char) (k : Nat) : List IndexEntry :=
  kNearest db.entries (db.embedF query) k

/-! ## The Query Router (spec §4.3, 04.serve-llm.ipynb architecture)

Modelled from the spec: the transformer and predictor images live under
`dockerfiles/`, outside the reviewed sources.  The transformer intercepts
the request, obtains the context chunks from the vector store service,
combines them with the question through the fixed prompt template, and
forwards the enriched prompt together with the sampling parameters to the
LLM predictor, whose generated text is returned. -/

/-- An exact decimal literal (mantissa and number of decimal places), for
JSON numbers such as `0.4` (`decimalLit 4 1`). -/
structure DecimalLit where
  mantissa : Int
  places : Nat
  deriving DecidableEq

/-- The sampling parameters the LLM predictor is invoked with. -/
structure GenParams where
  max_tokens : Nat
  top_k : Nat
  top_p : DecimalLit
  temperature : DecimalLit
  deriving DecidableEq

/-- A query-router request: the fields of one `instances` element of the
LLM service payload. -/
structure RouterRequest where
  system : List Char
  instruction : List Char
  input : List Char
  num_docs : Nat
  params : GenParams

/-- The retrieved chunk texts concatenated into one context block. -/
def joinContext (chunks : List (List Char)) : List Char := chunks.flatten

/-- Modelled from the spec: the fixed prompt template, filled with the
system instructions, the instruction, the context block and the
question. -/
def fillTemplate (sys instr context question : List Char) : List Char :=
  sys ++ ['\n'] ++ instr ++ ['\n'] ++ context ++ ['\n'] ++ question

/-- The vector store predictor: answer a query by returning the texts of
the `num_docs` nearest chunks. -/
def vectorstorePredict (db : VectorStore) (input : List Char) (num_docs : Nat) : List (List Char) :=
  (similarity_search db input num_docs).map (fun e => e.chunk)

/-- The transformer's preprocessing: fetch the context from the vector
store service and build the enriched prompt. -/
def transformerPreprocess (db : VectorStore) (req : RouterRequest) : List Char :=
  fillTemplate req.system req.instruction
    (joinContext (vectorstorePredict db req.input req.num_docs)) req.input

/-- The LLM predictor: generate text from the prompt under the sampling
parameters (the generation model itself is the external `generate`). -/
def llmPredict (generate : List Char → GenParams → List Char)
    (prompt : List Char) (params : GenParams) : List Char :=
  generate prompt params

/-- The deployed LLM inference service: transformer preprocessing
followed by the predictor. -/
def llmService (db : VectorStore) (generate : List Char → GenParams → List Char)
    (req : RouterRequest) : List Char :=
  llmPredict generate (transformerPreprocess db req) req.params

/-- The Query Router exactly as the claim describes it: embed the
question with the Index's embedding function, retrieve the k nearest
entries, concatenate their chunk texts into a context block, fill the
fixed prompt template, submit to the generation endpoint with the
sampling parameters, return the generated text. -/
def queryRouterSpec (db : VectorStore) (generate : List Char → GenParams → List Char)
    (req : RouterRequest) : List Char :=
  let qEmb := db.embedF req.input
  let entries := kNearest db.entries qEmb req.num_docs
  let context := joinContext (entries.map (fun e => e.chunk))
  let prompt := fillTemplate req.system req.instruction context req.input
  generate prompt req.params

/-! ## Client HTTP requests (02/03 invoke notebooks, part_000, bike-sharing) -/

/-- A JSON value; decimals are kept as exact literals. -/
inductive JVal where
  | jstr : String → JVal
  | jint : Int → JVal
  | jdec : Int → Nat → JVal
  | jarr : List JVal → JVal
  | jobj : List (String × JVal) → JVal

/-- Field lookup in a JSON object. -/
def lookupField (k : String) : List (String × JVal) → Option JVal
  | [] => none
  | (k2, v) :: rest => if k == k2 then some v else lookupField k rest

/-- One element of an `instances` array as the claim describes it: an
object with a string `input` and an integer `num_docs` (extra generation
parameters allowed). -/
def isInstObj : JVal → Bool
  | .jobj fields =>
    (match lookupField "input" fields with
     | some (.jstr _) => true
     | _ => false) &&
    (match lookupField "num_docs" fields with
     | some (.jint _) => true
     | _ => false)
  | _ => false

/-- A body of the form `{"instances": [{"input": string, "num_docs": int, ...}]}`. -/
def isInstancesBody : JVal → Bool
  | .jobj fields =>
    match lookupField "instances" fields with
    | some (.jarr insts) => !insts.isEmpty && insts.all isInstObj
    | _ => false
  | _ => false

/-- An HTTP request as the notebooks build it. -/
structure HttpRequest where
  method : String
  host : List Char
  path : List Char
  body : JVal

/-- The LLM invocation payload (part_000 notebook). -/
def llmBody : JVal :=
  .jobj [("instances", .jarr [.jobj [
    ("system", .jstr "You are an AI assistant. You will be given a task. You must generate a detailed answer."),
    ("instruction", .jstr "Use the following pieces of context to answer the question at the end. If you don\x27t know the answer, just say that you don\x27t know, don\x27t try to make up an answer."),
    ("input", .jstr "Can a process running in a Linux Namespace communicate with another process running in another Namespace?"),
    ("max_tokens", .jint 50),
    ("top_k", .jint 100),
    ("top_p", .jdec 4 1),
    ("num_docs", .jint 1),
    ("temperature", .jdec 2 1)]])]

/-- The LLM invocation request: POST to
`https://llm-transformer-default.{NAMESPACE}.svc.cluster.local/v1/models/llm:predict`. -/
def llmRequest (ns : List Char) : HttpRequest :=
  { method := "POST"
    host := "llm-transformer-default.".data ++ ns ++ ".svc.cluster.local".data
    path := "/v1/models/llm:predict".data
    body := llmBody }

/-- The vector store invocation payload (03 invoke notebook). -/
def vectorstoreBody : JVal :=
  .jobj [("instances", .jarr [.jobj [
    ("input", .jstr "Who\x27s Ada Lovelace?"),
    ("num_docs", .jint 4)]])]

/-- The vector store invocation request: POST to
`https://vectorstore-predictor-default.{NAMESPACE}.svc.cluster.local/v1/models/vectorstore:predict`. -/
def vectorstoreRequest (ns : List Char) : HttpRequest :=
  { method := "POST"
    host := "vectorstore-predictor-default.".data ++ ns ++ ".svc.cluster.local".data
    path := "/v1/models/vectorstore:predict".data
    body := vectorstoreBody }

/-- The bike-sharing prediction payload (bike-sharing prediction
notebook): a V2 inference request with an `inputs` tensor. -/
def bikeSharingBody : JVal :=
  .jobj [("inputs", .jarr [.jobj [
    ("name", .jstr "ndarray"),
    ("shape", .jarr [.jint 2, .jint 12]),
    ("datatype", .jstr "FP32"),
    ("data", .jarr [
      .jarr [.jint 1, .jint 2, .jint 1, .jint 0, .jint 0, .jint 6, .jint 0,
        .jint 1, .jdec 24 2, .jdec 2879 4, .jdec 81 2, .jdec 0 4],
      .jarr [.jint 1, .jint 5, .jint 1, .jint 0, .jint 0, .jint 6, .jint 1,
        .jint 1, .jdec 24 2, .jdec 2879 4, .jdec 81 2, .jdec 0 4]])]])]

/-- The bike-sharing prediction request: POST to
`https://bike-sharing-predictor-default.{NAMESPACE}.svc.cluster.local/v2/models/bike-sharing/infer`. -/
def bikeSharingRequest (ns : List Char) : HttpRequest :=
  { method := "POST"
    host := "bike-sharing-predictor-default.".data ++ ns ++ ".svc.cluster.local".data
    path := "/v2/models/bike-sharing/infer".data
    body := bikeSharingBody }

/-- Every prediction request a client notebook of the repository sends. -/
def clientRequests (ns : List Char) : List HttpRequest :=
  [vectorstoreRequest ns, llmRequest ns, bikeSharingRequest ns]

/-- A V2 inference body: an object carrying an `inputs` tensor array. -/
def hasInputsTensorBody : JVal → Bool
  | .jobj fields =>
    match lookupField "inputs" fields with
    | some (.jarr _) => true
    | _ => false
  | _ => false

/-- The response field the bike-sharing client reads
(`response.json()['outputs'][0]['data']`). -/
def bikeSharingResponseKey : String := "outputs"

/-- The shape the claim asserts of every prediction request: an HTTP POST
with an `instances` body, addressed to a `/v1/models/<name>:predict`
path. -/
def isV1PredictShape (r : HttpRequest) : Bool :=
  (r.method == "POST") && isPre "/v1/models/".data r.path &&
  endsWithL ":predict".data r.path && isInstancesBody r.body

/-! ## HTTP invocation (part_000, 03 invoke notebook)

`requests.post(URL, json=data, headers=headers, verify=False)` is a
single blocking call.  The network is an oracle mapping a request and an
attempt index to either an error (connection failure, generation
timeout — carried as its message) or a response body; the notebooks
perform exactly one call at attempt index 0 and never look at any later
attempt. -/

/-- The network/service oracle. -/
def HttpOracle : Type := HttpRequest → Nat → Except String JVal

/-- The LLM invocation cell: one `requests.post` of the LLM request,
whose outcome — error or response — is the cell's result. -/
def invokeLLM (post : HttpOracle) (ns : List Char) : Except String JVal :=
  post (llmRequest ns) 0

/-- The vector store invocation cell: one `requests.post` of the vector
store request. -/
def invokeVectorstore (post : HttpOracle) (ns : List Char) : Except String JVal :=
  post (vectorstoreRequest ns) 0

/-! ## Experiment registration (02.serve-vectorstore.ipynb, bike-sharing)

```python
def get_or_create_experiment(exp_name):
    try:
        mlflow.set_experiment(exp_name)
    except Exception as e:
        raise RuntimeError(f"Failed to set the experiment: {e}")
```

`mlflow.set_experiment` is external; it is a parameter mapping the
experiment name to success or an exception (kind and message). -/

/-- A Python exception: its class name and its message. -/
structure PyExc where
  kind : String
  msg : String
  deriving DecidableEq

/-- `get_or_create_experiment` from 02.serve-vectorstore.ipynb. -/
def get_or_create_experiment (set_exp : String → Except PyExc Unit)
    (exp_name : String) : Except PyExc Unit :=
  match set_exp exp_name with
  | .ok u => .ok u
  | .error e => .error { kind := "RuntimeError"
                         msg := "Failed to set the experiment: " ++ e.msg }

/-- `set_experiment` from the bike-sharing notebook (same code). -/
def set_experiment (set_exp : String → Except PyExc Unit)
    (exp_name : String) : Except PyExc Unit :=
  match set_exp exp_name with
  | .ok u => .ok u
  | .error e => .error { kind := "RuntimeError"
                         msg := "Failed to set the experiment: " ++ e.msg }

/-! # Theorems -/

/-! ## Base64 lemmas and claim C10 -/

theorem decB64Char_encB64Char : ∀ i, i < 64 →
    decB64Char (encB64Char i) = i ∧ (encB64Char i == '=') = false := by
  decide

theorem b64_roundtrip : ∀ bytes : List Nat, (∀ b ∈ bytes, b < 256) →
    b64decodeChars (b64encodeBytes bytes) = some bytes := by
  intro bytes
  induction bytes using b64encodeBytes.induct with
  | case1 => intro _; rfl
  | case2 a =>
    intro h
    have ha : a < 256 := h a (by simp)
    have h1 := decB64Char_encB64Char (a / 4) (by omega)
    have h2 := decB64Char_encB64Char (a % 4 * 16) (by omega)
    simp only [b64encodeBytes, b64decodeChars, h1.1, h2.1, List.isEmpty_nil]
    have g1 : decide (a / 4 < 64) = true := by simp only [decide_eq_true_eq]; omega
    have g2 : decide (a % 4 * 16 < 64) = true := by simp only [decide_eq_true_eq]; omega
    simp [g1, g2]
    omega
  | case3 a b =>
    intro h
    have ha : a < 256 := h a (by simp)
    have hb : b < 256 := h b (by simp)
    have h1 := decB64Char_encB64Char (a / 4) (by omega)
    have h2 := decB64Char_encB64Char (a % 4 * 16 + b / 16) (by omega)
    have h3 := decB64Char_encB64Char (b % 16 * 4) (by omega)
    simp only [b64encodeBytes, b64decodeChars, h1.1, h2.1, h3.1, h3.2,
      List.isEmpty_nil]
    have g1 : decide (a / 4 < 64) = true := by simp only [decide_eq_true_eq]; omega
    have g2 : decide (a % 4 * 16 + b / 16 < 64) = true := by
      simp only [decide_eq_true_eq]; omega
    have g3 : decide (b % 16 * 4 < 64) = true := by
      simp only [decide_eq_true_eq]; omega
    simp [g1, g2, g3]
    constructor <;> omega
  | case4 a b c rest ih =>
    intro h
    have ha : a < 256 := h a (by simp)
    have hb : b < 256 := h b (by simp)
    have hc : c < 256 := h c (by simp)
    have hrest : ∀ x ∈ rest, x < 256 := fun x hx => h x (by simp [hx])
    have h1 := decB64Char_encB64Char (a / 4) (by omega)
    have h2 := decB64Char_encB64Char (a % 4 * 16 + b / 16) (by omega)
    have h3 := decB64Char_encB64Char (b % 16 * 4 + c / 64) (by omega)
    have h4 := decB64Char_encB64Char (c % 64) (by omega)
    simp only [b64encodeBytes, b64decodeChars, h1.1, h2.1, h3.1, h3.2, h4.1,
      h4.2, ih hrest]
    have g1 : decide (a / 4 < 64) = true := by simp only [decide_eq_true_eq]; omega
    have g2 : decide (a % 4 * 16 + b / 16 < 64) = true := by
      simp only [decide_eq_true_eq]; omega
    have g3 : decide (b % 16 * 4 + c / 64 < 64) = true := by
      simp only [decide_eq_true_eq]; omega
    have g4 : decide (c % 64 < 64) = true := by simp only [decide_eq_true_eq]; omega
    simp [g1, g2, g3, g4]
    refine ⟨by omega, by omega, by omega⟩

/-- Claim C10: for every string of ASCII characters, base64-decoding the
output of `encode_base64` and ASCII-decoding the bytes yields the
original string; for any input containing a non-ASCII character,
`encode_base64` raises an encoding error. -/
theorem c10_base64_roundtrip (message : List Nat) :
    ((∀ ch ∈ message, ch < 128) →
      ∃ out, encode_base64 message = some out ∧
        (b64decodeChars out).bind bytesDecodeAscii = some message) ∧
    ((∃ ch ∈ message, 128 ≤ ch) → encode_base64 message = none) := by
  constructor
  · intro h
    have hall : (message.all fun x => decide (x < 128)) = true := by
      simp only [List.all_eq_true, decide_eq_true_eq]
      exact h
    refine ⟨b64encodeBytes message, ?_, ?_⟩
    · simp [encode_base64, strEncodeAscii, hall]
    · rw [b64_roundtrip message (fun b hb => lt_of_lt_of_le (h b hb) (by norm_num))]
      show (if (message.all fun x => decide (x < 128)) = true
        then some message else none) = some message
      rw [if_pos hall]
  · rintro ⟨ch, hch, hge⟩
    have hall : ¬ (message.all fun x => decide (x < 128)) = true := by
      simp only [List.all_eq_true, decide_eq_true_eq, not_forall]
      exact ⟨ch, hch, by omega⟩
    simp only [encode_base64, strEncodeAscii]
    rw [if_neg hall]
    rfl

/-- Witness for C10 at the concrete inputs `"hi"` (codepoints 104, 105)
and `[104, 200]` (a non-ASCII codepoint). -/
theorem c10_witness :
    (∃ out, encode_base64 [104, 105] = some out ∧
      (b64decodeChars out).bind bytesDecodeAscii = some [104, 105]) ∧
    encode_base64 [104, 200] = none :=
  ⟨(c10_base64_roundtrip [104, 105]).1 (by decide),
   (c10_base64_roundtrip [104, 200]).2 ⟨200, by decide, by decide⟩⟩

/-! ## Claim C9: `load_docs` scope -/

/-- Claim C9: `load_docs` returns documents only for `.txt` files located
directly in the source directory — entries in subdirectories are never
loaded — and when no `.txt` file is directly in the directory it returns
the empty list (no error). -/
theorem c9_load_docs_scope (files : List FsEntry) :
    (∀ d ∈ load_docs files, ∃ f ∈ files,
      ('/' ∉ f.relPath) ∧ endsWithL ".txt".data f.relPath = true ∧
      d = { page_content := f.content, source := f.relPath }) ∧
    ((∀ f ∈ files, ¬ (('/' ∉ f.relPath) ∧ endsWithL ".txt".data f.relPath = true)) →
      load_docs files = []) := by
  constructor
  · intro d hd
    simp only [load_docs, load_doc, List.mem_flatMap, List.mem_filter,
      List.mem_singleton] at hd
    obtain ⟨f, ⟨hf, hmatch⟩, hd⟩ := hd
    simp only [matchesTxtGlob, Bool.and_eq_true, List.all_eq_true] at hmatch
    refine ⟨f, hf, ?_, hmatch.2, hd⟩
    intro hmem
    have := hmatch.1.1 '/' hmem
    simp at this
  · intro h
    simp only [load_docs]
    rw [List.filter_eq_nil_iff.mpr, List.flatMap_nil]
    intro f hf
    simp only [matchesTxtGlob, Bool.and_eq_true, List.all_eq_true]
    rintro ⟨⟨hall, -⟩, hsuf⟩
    refine h f hf ⟨?_, hsuf⟩
    intro hmem
    have := hall '/' hmem
    simp at this

/-- Witness for C9: a directory with a direct `.txt` file, a `.txt` file
inside a subdirectory, and a non-`.txt` file. -/
theorem c9_witness :
    ∃ f ∈ ([⟨"a.txt".data, "hi".data⟩, ⟨"sub/b.txt".data, "x".data⟩,
        ⟨"notes.md".data, "y".data⟩] : List FsEntry),
      ('/' ∉ f.relPath) ∧ endsWithL ".txt".data f.relPath = true ∧
      ({ page_content := "hi".data, source := "a.txt".data } : Document) =
        { page_content := f.content, source := f.relPath } :=
  (c9_load_docs_scope _).1 _ (by decide)

/-! ## Claim C4: experiment-registration error wrapping -/

/-- Claim C4: the experiment-registration helper raises a `RuntimeError`
exactly when the underlying `mlflow.set_experiment` raises, with the
original message appended to the fixed prefix; the bike-sharing copy
behaves identically, and the repository's other operations (the HTTP
invocations) hand the library outcome through without any handling. -/
theorem c4_error_wrapping (set_exp : String → Except PyExc Unit) (name : String) :
    (∀ exc, get_or_create_experiment set_exp name = .error exc ↔
      ∃ e, set_exp name = .error e ∧
        exc = { kind := "RuntimeError",
                msg := "Failed to set the experiment: " ++ e.msg }) ∧
    (∀ u, get_or_create_experiment set_exp name = .ok u ↔ set_exp name = .ok u) ∧
    set_experiment set_exp name = get_or_create_experiment set_exp name ∧
    (∀ post ns, invokeLLM post ns = post (llmRequest ns) 0) ∧
    (∀ post ns, invokeVectorstore post ns = post (vectorstoreRequest ns) 0) := by
  refine ⟨?_, ?_, rfl, fun _ _ => rfl, fun _ _ => rfl⟩
  · intro exc
    cases h : set_exp name with
    | ok u => simp [get_or_create_experiment, h]
    | error e =>
      simp only [get_or_create_experiment, h, Except.error.injEq]
      constructor
      · intro he; exact ⟨e, rfl, he.symm⟩
      · rintro ⟨e2, he2, rfl⟩
        cases he2
        rfl
  · intro u
    cases h : set_exp name with
    | ok u2 => simp [get_or_create_experiment, h]
    | error e => simp [get_or_create_experiment, h]

/-- Witness for C4: a concrete mlflow failure is re-raised as a
`RuntimeError` with the original message appended. -/
theorem c4_witness :
    get_or_create_experiment (fun _ => .error ⟨"MlflowException", "boom"⟩)
      "question-answering" =
      .error ⟨"RuntimeError", "Failed to set the experiment: boom"⟩ :=
  ((c4_error_wrapping (fun _ => .error ⟨"MlflowException", "boom"⟩)
      "question-answering").1 _).mpr ⟨⟨"MlflowException", "boom"⟩, rfl, by rfl⟩

/-! ## Claim C5: prediction interface shape -/

/-- Counterexample to C5 as stated: not every prediction request the
repository's clients send is a `{"instances": ...}` POST to a
`/v1/models/<name>:predict` path — the bike-sharing client violates it. -/
theorem c5_counterexample :
    ¬ ∀ r ∈ clientRequests "user".data, isV1PredictShape r = true := by
  decide

/-- Claim C5 (amended): the two question-answering clients send
`{"instances": [{"input": string, "num_docs": int, ...}]}` POSTs to
`/v1/models/<name>:predict` paths, while the bike-sharing client sends a
V2 inference POST to `/v2/models/bike-sharing/infer` with an `inputs`
tensor body and reads the `outputs` field of the response. -/
theorem c5_request_shapes (ns : List Char) :
    isV1PredictShape (vectorstoreRequest ns) = true ∧
    isV1PredictShape (llmRequest ns) = true ∧
    (bikeSharingRequest ns).method = "POST" ∧
    (bikeSharingRequest ns).path = "/v2/models/bike-sharing/infer".data ∧
    hasInputsTensorBody (bikeSharingRequest ns).body = true ∧
    bikeSharingResponseKey = "outputs" :=
  ⟨rfl, rfl, rfl, rfl, rfl, rfl⟩

/-! ## Claim C6: failure transparency of the HTTP invocations -/

/-- Claim C6: each invocation is a single `requests.post`; a network or
timeout error at the one call is surfaced to the caller unmodified, and
the result never depends on any retry attempt. -/
theorem c6_failure_transparency (post : HttpOracle) (ns : List Char) :
    invokeLLM post ns = post (llmRequest ns) 0 ∧
    invokeVectorstore post ns = post (vectorstoreRequest ns) 0 ∧
    (∀ e, post (llmRequest ns) 0 = .error e → invokeLLM post ns = .error e) ∧
    (∀ e, post (vectorstoreRequest ns) 0 = .error e →
      invokeVectorstore post ns = .error e) ∧
    (∀ post2, post (llmRequest ns) 0 = post2 (llmRequest ns) 0 →
      invokeLLM post ns = invokeLLM post2 ns) :=
  ⟨rfl, rfl, fun _ h => h, fun _ h => h, fun _ h => h⟩

/-- Witness for C6: a timeout on the first and only attempt is returned
as-is, even though a retry would have succeeded. -/
theorem c6_witness :
    invokeLLM (fun _ attempt => if attempt = 0 then .error "ReadTimeout"
      else .ok (.jstr "late answer")) "user".data = .error "ReadTimeout" :=
  (c6_failure_transparency (fun _ attempt => if attempt = 0 then .error "ReadTimeout"
      else .ok (.jstr "late answer")) "user".data).2.2.1 "ReadTimeout" rfl

/-! ## Claim C3: the Query Router pipeline -/

/-- Claim C3: the deployed LLM service (transformer preprocessing plus
predictor) computes exactly the claim's step sequence — embed the
question with the Index's embedding function, retrieve the `k` nearest
entries, concatenate their chunk texts into a context block, fill the
fixed prompt template, and submit it with the sampling parameters to the
generation endpoint, returning the generated text. -/
theorem c3_router_pipeline (db : VectorStore)
    (generate : List Char → GenParams → List Char) (req : RouterRequest) :
    llmService db generate req = queryRouterSpec db generate req := rfl

/-! ## Claim C7: single embedding function -/

/-- Claim C7: every entry of the store built by `from_documents` carries
the embedding of its own chunk under the store's one embedding function,
and queries embed with that same function. -/
theorem c7_single_embedding_function (f : List Char → List Int)
    (texts : List (List Char)) :
    (∀ e ∈ (from_documents f texts).entries, e.emb = f e.chunk) ∧
    (from_documents f texts).embedF = f ∧
    (∀ query k, similarity_search (from_documents f texts) query k =
      kNearest (from_documents f texts).entries (f query) k) := by
  refine ⟨?_, rfl, fun _ _ => rfl⟩
  intro e he
  simp only [from_documents, List.mem_map] at he
  obtain ⟨t, -, rfl⟩ := he
  rfl

/-- Witness for C7 at a concrete store of two chunks. -/
theorem c7_witness :
    ({ chunk := "ab".data, emb := [2] } : IndexEntry).emb =
      (fun t : List Char => [(t.length : Int)]) ("ab".data) :=
  (c7_single_embedding_function (fun t => [(t.length : Int)])
    ["a".data, "ab".data]).1 ⟨"ab".data, [2]⟩ (by decide)

/-! ## Splitter lemmas and claims C2, C8 -/

theorem curLen_nil : curLen [] = 0 := rfl

theorem curLen_cons (c : List Char) (rest : List (List Char)) :
    curLen (c :: rest) = c.length + curLen rest := by
  simp [curLen]

theorem curLen_append (a b : List (List Char)) :
    curLen (a ++ b) = curLen a + curLen b := by
  simp [curLen]

theorem curLen_single (d : List Char) : curLen [d] = d.length := by
  simp [curLen]

theorem popWhile_spec (cs ov dlen : Nat) : ∀ cur : List (List Char),
    curLen (popWhile cs ov dlen cur) ≤ ov ∧
    (curLen (popWhile cs ov dlen cur) + dlen ≤ cs ∨
      curLen (popWhile cs ov dlen cur) = 0) := by
  intro cur
  induction cur with
  | nil => simp [popWhile, curLen]
  | cons c rest ih =>
    rw [popWhile]
    split
    · exact ih
    · rename_i h
      constructor
      · omega
      · omega

theorem popWhile_zero (cs dlen : Nat) : ∀ cur : List (List Char),
    (∀ p ∈ cur, p ≠ []) → popWhile cs 0 dlen cur = [] := by
  intro cur
  induction cur with
  | nil => intro _; rfl
  | cons c rest ih =>
    intro h
    rw [popWhile, if_pos]
    · exact ih (fun p hp => h p (List.mem_cons_of_mem c hp))
    · left
      have hc : c ≠ [] := h c (List.mem_cons_self c rest)
      have : 0 < c.length := List.length_pos.mpr hc
      rw [curLen_cons]
      omega

theorem mergeAux_bound (cs ov : Nat) : ∀ splits cur : List (List Char),
    (∀ d ∈ splits, d.length < cs) → curLen cur ≤ cs →
    ∀ c ∈ mergeAux cs ov splits cur, c.length ≤ cs := by
  intro splits
  induction splits with
  | nil =>
    intro cur _ hcur c hc
    rw [mergeAux] at hc
    split at hc
    · simp at hc
    · simp only [List.mem_singleton] at hc
      subst hc
      exact hcur
  | cons d ds ih =>
    intro cur h hcur c hc
    have hd : d.length < cs := h d (List.mem_cons_self d ds)
    have hds : ∀ x ∈ ds, x.length < cs := fun x hx => h x (List.mem_cons_of_mem d hx)
    rw [mergeAux] at hc
    split at hc
    · rename_i hover
      split at hc
      · rename_i hemp
        rw [List.isEmpty_iff.mp hemp, curLen_nil] at hover
        omega
      · rcases List.mem_cons.mp hc with rfl | hc2
        · exact hcur
        · refine ih (popWhile cs ov d.length cur ++ [d]) hds ?_ c hc2
          have hw := popWhile_spec cs ov d.length cur
          rw [curLen_append, curLen_single]
          omega
    · rename_i hfit
      refine ih (cur ++ [d]) hds ?_ c hc
      rw [curLen_append, curLen_single]
      omega

theorem mergeAux_flatten (cs : Nat) : ∀ splits cur : List (List Char),
    (∀ p ∈ splits, p ≠ []) → (∀ p ∈ cur, p ≠ []) →
    (mergeAux cs 0 splits cur).flatten = cur.flatten ++ splits.flatten := by
  intro splits
  induction splits with
  | nil =>
    intro cur _ _
    rw [mergeAux]
    split
    · rename_i hemp
      rw [List.isEmpty_iff.mp hemp]
      simp
    · simp
  | cons d ds ih =>
    intro cur hs hcur
    have hd : d ≠ [] := hs d (List.mem_cons_self d ds)
    have hds : ∀ p ∈ ds, p ≠ [] := fun p hp => hs p (List.mem_cons_of_mem d hp)
    rw [mergeAux]
    split
    · split
      · rename_i hemp
        rw [ih [d] hds (by simp [hd]), List.isEmpty_iff.mp hemp]
        simp
      · rw [popWhile_zero cs d.length cur hcur]
        simp only [List.nil_append, List.flatten_cons]
        rw [ih [d] hds (by simp [hd])]
        simp
    · rw [ih (cur ++ [d]) hds ?_]
      · simp
      · intro p hp
        rcases List.mem_append.mp hp with h1 | h2
        · exact hcur p h1
        · simp only [List.mem_singleton] at h2
          subst h2
          exact hd

theorem isPre_append_drop : ∀ sep l : List Char, isPre sep l = true →
    sep ++ l.drop sep.length = l := by
  intro sep
  induction sep with
  | nil => intro l _; simp
  | cons a as ih =>
    intro l h
    cases l with
    | nil => simp [isPre] at h
    | cons b bs =>
      simp only [isPre, Bool.and_eq_true, beq_iff_eq] at h
      obtain ⟨rfl, h2⟩ := h
      simp only [List.length_cons, List.drop_succ_cons, List.cons_append,
        List.cons.injEq, true_and]
      exact ih bs h2

theorem splitKSAux_flatten (sep : List Char) : ∀ (fuel : Nat) (text cur : List Char),
    text.length ≤ fuel → (splitKSAux sep fuel text cur).flatten = cur ++ text := by
  intro fuel
  induction fuel with
  | zero =>
    intro text cur h
    have htext : text = [] := by
      cases text with
      | nil => rfl
      | cons c r => simp at h
    subst htext
    simp only [splitKSAux]
    split
    · rename_i hemp
      rw [List.isEmpty_iff.mp hemp]
      simp
    · simp
  | succ fuel ih =>
    intro text cur h
    cases text with
    | nil =>
      simp only [splitKSAux]
      split
      · rename_i hemp
        rw [List.isEmpty_iff.mp hemp]
        simp
      · simp
    | cons c rest =>
      simp only [splitKSAux]
      split
      · rename_i hcond
        simp only [Bool.and_eq_true, Bool.not_eq_eq_eq_not, Bool.not_true] at hcond
        have hslen : 0 < sep.length := by
          cases sep with
          | nil => simp at hcond
          | cons a as => simp
      
        rw [List.flatten_append,
          ih ((c :: rest).drop sep.length) sep
            (by simp only [List.length_drop, List.length_cons]
                simp only [List.length_cons] at h
                omega),
          isPre_append_drop sep (c :: rest) hcond.2]
        split
        · rename_i hemp
          rw [List.isEmpty_iff.mp hemp]
          simp
        · simp
      · rw [ih rest (cur ++ [c])
          (by simp only [List.length_cons] at h; omega)]
        simp

theorem splitKSAux_ne_nil (sep : List Char) : ∀ (fuel : Nat) (text cur : List Char),
    ∀ p ∈ splitKSAux sep fuel text cur, p ≠ [] := by
  intro fuel
  induction fuel with
  | zero =>
    intro text cur p hp
    cases text with
    | nil =>
      simp only [splitKSAux] at hp
      split at hp
      · simp at hp
      · rename_i hemp
        simp only [List.mem_singleton] at hp
        subst hp
        simpa using hemp
    | cons c rest =>
      simp only [splitKSAux] at hp
      split at hp
      · simp at hp
      · rename_i hemp
        simp only [List.mem_singleton] at hp
        subst hp
        simp
  | succ fuel ih =>
    intro text cur p hp
    cases text with
    | nil =>
      simp only [splitKSAux] at hp
      split at hp
      · simp at hp
      · rename_i hemp
        simp only [List.mem_singleton] at hp
        subst hp
        simpa using hemp
    | cons c rest =>
      simp only [splitKSAux] at hp
      split at hp
      · rcases List.mem_append.mp hp with h1 | h2
        · split at h1
          · simp at h1
          · rename_i hemp
            simp only [List.mem_singleton] at h1
            subst h1
            simpa using hemp
        · exact ih _ sep p h2
      · exact ih rest (cur ++ [c]) p hp

theorem splitKS_flatten (sep text : List Char) :
    (splitKS sep text).flatten = text := by
  simpa using splitKSAux_flatten sep text.length text [] (le_refl _)

theorem splitKS_ne_nil (sep text : List Char) :
    ∀ p ∈ splitKS sep text, p ≠ [] :=
  splitKSAux_ne_nil sep text.length text []

theorem combine_bound (cs ov : Nat) :
    ∀ (pend : List (List Char × List (List Char))) (good : List (List Char)),
    (∀ p ∈ pend, cs ≤ p.1.length → ∀ c ∈ p.2, c.length ≤ cs) →
    (∀ g ∈ good, g.length < cs) →
    ∀ c ∈ combine cs ov pend good, c.length ≤ cs := by
  intro pend
  induction pend with
  | nil =>
    intro good _ hgood c hc
    rw [combine] at hc
    exact mergeAux_bound cs ov good [] hgood (by rw [curLen_nil]; omega) c hc
  | cons p rest ih =>
    intro good hp hgood c hc
    obtain ⟨s, res⟩ := p
    have hrest : ∀ q ∈ rest, cs ≤ q.1.length → ∀ c ∈ q.2, c.length ≤ cs :=
      fun q hq => hp q (List.mem_cons_of_mem _ hq)
    rw [combine] at hc
    split at hc
    · rename_i hstrict
      refine ih (good ++ [s]) hrest ?_ c hc
      intro g hg
      rcases List.mem_append.mp hg with h1 | h2
      · exact hgood g h1
      · simp only [List.mem_singleton] at h2
        subst h2
        exact hstrict
    · rename_i hlong
      rcases List.mem_append.mp hc with h12 | h3
      · rcases List.mem_append.mp h12 with h1 | h2
        · exact mergeAux_bound cs ov good [] hgood (by rw [curLen_nil]; omega) c h1
        · exact hp (s, res) (List.mem_cons_self _ _)
            (by show cs ≤ s.length; omega) c h2
      · exact ih [] hrest (by simp) c h3

theorem combine_flatten (cs : Nat) :
    ∀ (pend : List (List Char × List (List Char))) (good : List (List Char)),
    (∀ p ∈ pend, p.1 ≠ []) →
    (∀ p ∈ pend, cs ≤ p.1.length → p.2.flatten = p.1) →
    (∀ g ∈ good, g ≠ []) →
    (combine cs 0 pend good).flatten = good.flatten ++ (pend.map Prod.fst).flatten := by
  intro pend
  induction pend with
  | nil =>
    intro good _ _ hgood
    rw [combine, mergeAux_flatten cs good [] hgood (by simp)]
    simp
  | cons p rest ih =>
    intro good hne hres hgood
    obtain ⟨s, res⟩ := p
    have hs : s ≠ [] := hne (s, res) (List.mem_cons_self _ _)
    have hne2 : ∀ q ∈ rest, q.1 ≠ [] := fun q hq => hne q (List.mem_cons_of_mem _ hq)
    have hres2 : ∀ q ∈ rest, cs ≤ q.1.length → q.2.flatten = q.1 :=
      fun q hq => hres q (List.mem_cons_of_mem _ hq)
    rw [combine]
    split
    · rw [ih (good ++ [s]) hne2 hres2 ?_]
      · simp
      · intro g hg
        rcases List.mem_append.mp hg with h1 | h2
        · exact hgood g h1
        · simp only [List.mem_singleton] at h2
          subst h2
          exact hs
    · rename_i hlong
      rw [List.flatten_append, List.flatten_append,
        mergeAux_flatten cs good [] hgood (by simp),
        ih [] hne2 hres2 (by simp),
        hres (s, res) (List.mem_cons_self _ _) (by show cs ≤ s.length; omega)]
      simp

theorem flatten_map_singleton : ∀ l : List Char,
    (l.map (fun ch => [ch])).flatten = l := by
  intro l
  induction l with
  | nil => rfl
  | cons c cs ih => simp [ih]

theorem splitText_bound (cs ov : Nat) : ∀ (seps : List (List Char)) (text : List Char),
    1 ≤ cs → [] ∈ seps →
    ∀ c ∈ splitText cs ov seps text, c.length ≤ cs := by
  intro seps
  induction seps with
  | nil =>
    intro text _ hmem
    simp at hmem
  | cons sep rest ih =>
    intro text hcs hmem c hc
    rw [splitText] at hc
    split at hc
    · refine combine_bound cs ov _ [] ?_ (by simp) c hc
      intro p hp _ c2 hc2
      obtain ⟨ch, -, rfl⟩ := List.mem_map.mp hp
      simp only [List.mem_singleton] at hc2
      subst hc2
      simpa using hcs
    · rename_i hne
      have hrest : [] ∈ rest := by
        rcases List.mem_cons.mp hmem with h1 | h2
        · exfalso
          rw [← h1] at hne
          simp at hne
        · exact h2
      split at hc
      · refine combine_bound cs ov _ [] ?_ (by simp) c hc
        intro p hp _ c2 hc2
        obtain ⟨s, -, rfl⟩ := List.mem_map.mp hp
        exact ih s hcs hrest c2 hc2
      · exact ih text hcs hrest c hc

theorem splitText_flatten (cs : Nat) : ∀ (seps : List (List Char)) (text : List Char),
    (splitText cs 0 seps text).flatten = text := by
  intro seps
  induction seps with
  | nil =>
    intro text
    simp [splitText]
  | cons sep rest ih =>
    intro text
    rw [splitText]
    split
    · rw [combine_flatten cs _ []
        (by intro p hp; obtain ⟨ch, -, rfl⟩ := List.mem_map.mp hp; simp)
        (by intro p hp _; obtain ⟨ch, -, rfl⟩ := List.mem_map.mp hp; simp)
        (by simp)]
      have : ((text.map (fun ch => ([ch], [[ch]]))).map Prod.fst) =
          text.map (fun ch => [ch]) := by
        induction text with
        | nil => rfl
        | cons x xs ihx => simp
      rw [this, flatten_map_singleton]
      rfl
    · split
      · rw [combine_flatten cs _ []
          (by intro p hp; obtain ⟨s, hs, rfl⟩ := List.mem_map.mp hp
              exact splitKS_ne_nil sep text s hs)
          (by intro p hp _; obtain ⟨s, hs, rfl⟩ := List.mem_map.mp hp
              exact ih s)
          (by simp)]
        have : (((splitKS sep text).map
            (fun s => (s, splitText cs 0 rest s))).map Prod.fst) =
            splitKS sep text := by
          induction splitKS sep text with
          | nil => rfl
          | cons x xs ihx => simp [ihx]
        rw [this, splitKS_flatten]
        rfl
      · exact ih text

theorem substringsInOrder_of_flatten : ∀ (chunks : List (List Char)) (text : List Char),
    chunks.flatten = text → substringsInOrder chunks text := by
  intro chunks
  induction chunks with
  | nil => intro text _; trivial
  | cons c rest ih =>
    intro text h
    subst h
    exact ⟨[], rest.flatten, by simp, ih rest.flatten rfl⟩

theorem substringsInOrder_mem : ∀ (chunks : List (List Char)) (text c : List Char),
    substringsInOrder chunks text → c ∈ chunks →
    ∃ pre post, text = pre ++ c ++ post := by
  intro chunks
  induction chunks with
  | nil =>
    intro text c _ hc
    simp at hc
  | cons c0 rest ih =>
    intro text c hord hc
    obtain ⟨pre, rem, htext, hord2⟩ := hord
    rcases List.mem_cons.mp hc with rfl | hc2
    · exact ⟨pre, rem, htext⟩
    · obtain ⟨pre2, post2, hrem⟩ := ih rem c hord2 hc2
      refine ⟨pre ++ c0 ++ pre2, post2, ?_⟩
      rw [htext, hrem]
      simp [List.append_assoc]

/-- Counterexample to C2 as stated: with the configured maximum chunk
length 0, chunking the one-character document `"a"` produces a chunk of
length 1, which exceeds the configured maximum. -/
theorem c2_counterexample :
    ∃ d ∈ process_docs [{ page_content := ['a'], source := [] }] 0 0,
      0 < d.page_content.length := by
  decide

/-- Claim C2 (amended): for every list of documents and every configured
maximum chunk length of at least 1, `process_docs` never produces a
chunk longer than that maximum (for any overlap setting). -/
theorem c2_chunk_bound (docs : List Document) (chunk_size chunk_overlap : Nat)
    (hcs : 1 ≤ chunk_size) :
    ∀ d ∈ process_docs docs chunk_size chunk_overlap,
      d.page_content.length ≤ chunk_size := by
  intro d hd
  simp only [process_docs, split_documents, List.mem_flatMap, List.mem_map] at hd
  obtain ⟨doc, -, c, hc, rfl⟩ := hd
  exact splitText_bound chunk_size chunk_overlap defaultSeparators
    doc.page_content hcs (by decide) c hc

/-- Witness for C2 at the notebook's configuration (chunk size 500,
overlap 0) on a concrete document. -/
theorem c2_witness :
    1 ≤ 500 ∧
    ∀ d ∈ process_docs [(⟨"hello world".data, "a.txt".data⟩ : Document)] 500 0,
      d.page_content.length ≤ 500 :=
  ⟨by decide, c2_chunk_bound _ 500 0 (by decide)⟩

/-- Claim C8: every chunk the splitter produces from a document is a
contiguous substring of that document, sibling chunks occupy disjoint
positions in order (overlap 0, the observed usage), and `process_docs`
is exactly this per-document chunking. -/
theorem c8_chunk_disjointness (chunk_size : Nat) (doc : Document) :
    (∀ c ∈ splitText chunk_size 0 defaultSeparators doc.page_content,
      ∃ pre post, doc.page_content = pre ++ c ++ post) ∧
    substringsInOrder (splitText chunk_size 0 defaultSeparators doc.page_content)
      doc.page_content ∧
    process_docs [doc] chunk_size 0 =
      (splitText chunk_size 0 defaultSeparators doc.page_content).map
        (fun c => { page_content := c, source := doc.source }) := by
  have hord := substringsInOrder_of_flatten _ _
    (splitText_flatten chunk_size defaultSeparators doc.page_content)
  exact ⟨fun c hc => substringsInOrder_mem _ _ c hord hc, hord,
    by simp [process_docs, split_documents]⟩

/-- Witness for C8 on the concrete document `"ab\n\ncd"` with chunk size
5: its chunk `"ab"` occurs contiguously in the document. -/
theorem c8_witness :
    substringsInOrder (splitText 5 0 defaultSeparators "ab\n\ncd".data)
      "ab\n\ncd".data ∧
    (∃ pre post, "ab\n\ncd".data = pre ++ "ab".data ++ post) :=
  ⟨(c8_chunk_disjointness 5 ⟨"ab\n\ncd".data, "d.txt".data⟩).2.1,
   (c8_chunk_disjointness 5 ⟨"ab\n\ncd".data, "d.txt".data⟩).1 "ab".data (by decide)⟩

/-! ## Index retrieval lemmas and claim C1 -/

theorem sqDist_self : ∀ x : List Int, sqDist x x = 0 := by
  intro x
  induction x with
  | nil => rfl
  | cons a as ih => simp [sqDist, ih]

theorem sqDist_nonneg : ∀ x y : List Int, 0 ≤ sqDist x y := by
  intro x
  induction x with
  | nil =>
    intro y
    cases y <;> simp [sqDist]
  | cons a as ih =>
    intro y
    cases y with
    | nil => simp [sqDist]
    | cons b bs =>
      simp only [sqDist]
      have h1 := ih bs
      have h2 : 0 ≤ (a - b) * (a - b) := mul_self_nonneg _
      linarith

theorem mem_orderedInsertE (q : List Int) (e : IndexEntry) :
    ∀ l y, y ∈ orderedInsertE q e l ↔ y = e ∨ y ∈ l := by
  intro l
  induction l with
  | nil =>
    intro y
    simp [orderedInsertE]
  | cons x xs ih =>
    intro y
    rw [orderedInsertE]
    split
    · simp [List.mem_cons]
    · simp only [List.mem_cons, ih]
      tauto

theorem mem_sortEntries (q : List Int) : ∀ l y, y ∈ sortEntries q l ↔ y ∈ l := by
  intro l
  induction l with
  | nil =>
    intro y
    simp [sortEntries]
  | cons x xs ih =>
    intro y
    rw [sortEntries, mem_orderedInsertE]
    simp only [List.mem_cons, ih]

theorem pairwise_orderedInsertE (q : List Int) (e : IndexEntry) :
    ∀ l, l.Pairwise (fun a b => sqDist q a.emb ≤ sqDist q b.emb) →
    (orderedInsertE q e l).Pairwise (fun a b => sqDist q a.emb ≤ sqDist q b.emb) := by
  intro l
  induction l with
  | nil =>
    intro _
    simp [orderedInsertE]
  | cons x xs ih =>
    intro hp
    obtain ⟨hx1, hx2⟩ := List.pairwise_cons.mp hp
    rw [orderedInsertE]
    split
    · rename_i hle
      refine List.Pairwise.cons ?_ hp
      intro y hy
      rcases List.mem_cons.mp hy with rfl | hy2
      · exact hle
      · have := hx1 y hy2
        omega
    · rename_i hgt
      push_neg at hgt
      refine List.Pairwise.cons ?_ (ih hx2)
      intro y hy
      rcases (mem_orderedInsertE q e xs y).mp hy with rfl | hy2
      · omega
      · exact hx1 y hy2

theorem pairwise_sortEntries (q : List Int) : ∀ l,
    (sortEntries q l).Pairwise (fun a b => sqDist q a.emb ≤ sqDist q b.emb) := by
  intro l
  induction l with
  | nil => simp [sortEntries]
  | cons x xs ih => exact pairwise_orderedInsertE q x (sortEntries q xs) ih

/-- Counterexample to C1 as stated: with a constant embedding function
(all chunks at distance zero from every query) the chunk `"b"` is stored
in the Index, but querying with its own exact text returns the chunk
`"a"` as the top result — the earlier-inserted entry wins the tie. -/
theorem c1_counterexample :
    ("b".data ∈ ["a".data, "b".data]) ∧
    (similarity_search (from_documents (fun _ => ([0] : List Int))
        ["a".data, "b".data]) "b".data 1).head? ≠
      some ⟨"b".data, [0]⟩ := by
  constructor
  · decide
  · decide

/-- Claim C1 (amended): a chunk stored in the Index and queried with its
own exact text is returned as the top result, provided no other stored
chunk's embedding lies at distance zero from the queried chunk's
embedding (and at least one result is requested). -/
theorem c1_roundtrip (f : List Char → List Int) (chunks : List (List Char))
    (c : List Char) (k : Nat) (hc : c ∈ chunks)
    (hsep : ∀ c2 ∈ chunks, sqDist (f c) (f c2) = 0 → c2 = c) (hk : 1 ≤ k) :
    (similarity_search (from_documents f chunks) c k).head? =
      some ⟨c, f c⟩ := by
  show ((sortEntries (f c) (chunks.map fun t => (⟨t, f t⟩ : IndexEntry))).take k).head? =
    some ⟨c, f c⟩
  have hentry : (⟨c, f c⟩ : IndexEntry) ∈
      chunks.map (fun t => (⟨t, f t⟩ : IndexEntry)) :=
    List.mem_map_of_mem _ hc
  have hmemL := (mem_sortEntries (f c) _ _).mpr hentry
  cases hLcase : sortEntries (f c) (chunks.map fun t => (⟨t, f t⟩ : IndexEntry)) with
  | nil =>
    rw [hLcase] at hmemL
    simp at hmemL
  | cons h0 t =>
    have hpw := pairwise_sortEntries (f c) (chunks.map fun t => (⟨t, f t⟩ : IndexEntry))
    rw [hLcase] at hpw hmemL
    obtain ⟨hmin, -⟩ := List.pairwise_cons.mp hpw
    have hh0 : h0 ∈ chunks.map (fun t => (⟨t, f t⟩ : IndexEntry)) := by
      have hmem : h0 ∈ sortEntries (f c) (chunks.map fun t => (⟨t, f t⟩ : IndexEntry)) := by
        rw [hLcase]
        exact List.mem_cons_self _ _
      exact (mem_sortEntries _ _ _).mp hmem
    obtain ⟨c2, hc2, hc2e⟩ := List.mem_map.mp hh0
    have hd0 : sqDist (f c) h0.emb = 0 := by
      rcases List.mem_cons.mp hmemL with heq | hmem_t
      · rw [← heq]
        exact sqDist_self (f c)
      · have h1 := hmin _ hmem_t
        have h2 := sqDist_nonneg (f c) h0.emb
        have h3 : sqDist (f c) (⟨c, f c⟩ : IndexEntry).emb = 0 := sqDist_self (f c)
        omega
    have hc2c : c2 = c := by
      apply hsep c2 hc2
      rw [← hc2e] at hd0
      exact hd0
    subst hc2c
    cases k with
    | zero => omega
    | succ k2 =>
      rw [List.take_succ_cons, List.head?_cons, ← hc2e]

/-- Witness for C1 at a concrete two-chunk store whose embedding function
separates the chunks. -/
theorem c1_witness :
    (similarity_search (from_documents (fun t => [(t.length : Int)])
        ["a".data, "bb".data]) "a".data 1).head? =
      some ⟨"a".data, [(1 : Int)]⟩ := by
  have h := c1_roundtrip (fun t => [(t.length : Int)]) ["a".data, "bb".data]
    "a".data 1 (by decide) (by decide) (by decide)
  simpa using h
